import Mathlib

/-!
Verification of `allennlp/models/archival.py`: `archive_model` and
`load_archive`, shallowly embedded over an explicit filesystem model.

Filesystem model: an association list from paths to entries, first
binding wins on lookup.  A path is its list of components
(`os.path.join a b` is list append; the rendered string joins the
components with a slash).  A tar archive is modelled as the list of
(arcname, entry) pairs it contains, stored as the content of the
`.tar.gz` file.

External collaborators not present under `src/` (`allennlp.common.Params`,
`allennlp.models.model.Model`, `cached_path`) are modelled from the spec;
third-party libraries (`pyhocon`, `json`, `tarfile`, `shutil`,
`tempfile`) are modelled from their documented semantics.  Configuration
texts (JSON / HOCON) are represented in parsed form as flat key-value
lists: `json.dumps` / `pyhocon.ConfigFactory.parse_string` round-trip
between the text and this form, and the empty overrides string is `[]`.
-/

/-- A filesystem path, as its list of components. -/
abbrev FPath := List String

/-- Render a path as a string, joining components with a slash; this is the
string that ends up inside configuration values. -/
def pathStr (p : FPath) : String := String.intercalate "/" p

/-- A parsed overrides / configuration text: a flat key-value map. -/
abbrev Overrides := List (String × String)

/-- One filesystem or tar entry: a directory, an opaque file, a file whose
bytes parse as a JSON object, or a gzip tar archive file with its entries. -/
inductive Entry where
  | dir : Entry
  | bytes (data : String) : Entry
  | jsonObj (fields : List (String × String)) : Entry
  | targz (entries : List (FPath × Entry)) : Entry

/-- A filesystem: an association list from paths to entries; the first
binding for a path wins. -/
abbrev FS := List (FPath × Entry)

/-- Look up the entry at a path (`os.path.exists` is `isSome` of this). -/
def fsLookup (fs : FS) (p : FPath) : Option Entry :=
  match fs with
  | [] => none
  | (q, e) :: rest => if q = p then some e else fsLookup rest p

/-- Write (create or truncate) a file at a path, replacing any previous
binding. -/
def fsWrite (fs : FS) (p : FPath) (e : Entry) : FS :=
  (p, e) :: fs.filter (fun q => q.1 ≠ p)

/-- Look up a key in a parsed key-value text, first binding wins. -/
def ovLookup (ov : Overrides) (k : String) : Option String :=
  match ov with
  | [] => none
  | (k2, v) :: rest => if k2 = k then some v else ovLookup rest k

/-- Merge of two parsed configuration layers in pyhocon's
`high.with_fallback(low)` direction: keys of `high` win, `low` only fills
in keys `high` does not set.  (pyhocon, like HOCON `withFallback`, gives
precedence to the receiver over the fallback argument.) -/
def hoconMerge (high low : Overrides) : Overrides :=
  high ++ low.filter (fun kv => (ovLookup high kv.1).isNone)

/-- Constant `_CONFIG_NAME = "config.json"` from the source. -/
def _CONFIG_NAME : String := "config.json"

/-- Constant `_WEIGHTS_NAME = "weights.th"` from the source. -/
def _WEIGHTS_NAME : String := "weights.th"

/-- Constant `_FTA_NAME = "files_to_archive.json"` from the source. -/
def _FTA_NAME : String := "files_to_archive.json"

/-- Modelled from the spec: `_DEFAULT_WEIGHTS` from
`allennlp.models.model` (not under `src/`), the well-known default
weights file name `best.th`. -/
def _DEFAULT_WEIGHTS : String := "best.th"

/-- Helper for `strPath`: split a character list at every slash,
accumulating the current component in reverse. -/
def strPathAux : List Char → List Char → List String
  | [], acc => [String.mk acc.reverse]
  | c :: rest, acc =>
      if c = '/' then String.mk acc.reverse :: strPathAux rest []
      else strPathAux rest (c :: acc)

/-- Parse a path string into its component list (inverse of `pathStr` on
slash-free components); used where the source passes path strings, such as
the values of the `files_to_archive` map. -/
def strPath (s : String) : FPath := strPathAux s.data []

/-- Truthiness of the optional `files_to_archive` dict argument: Python's
`if files_to_archive:` is false for `None` and for an empty dict. -/
def ftaTruthy (o : Option (List (String × String))) : Bool :=
  match o with
  | none => false
  | some l => !l.isEmpty

/-- Result of one `tarfile.add(path, arcname)` call: the produced tar
entries, or `none` when the source path does not exist (the call raises).
Adding a directory adds the directory entry and, recursively, everything
under it, rebased under the arcname. -/
def tarAdd (fs : FS) (p : FPath) (arc : FPath) : Option (List (FPath × Entry)) :=
  match fsLookup fs p with
  | none => none
  | some Entry.dir =>
      some ((arc, Entry.dir) ::
        fs.filterMap (fun q =>
          if p.isPrefixOf q.1 ∧ q.1 ≠ p then
            some (arc ++ q.1.drop p.length, q.2)
          else none))
  | some e => some [(arc, e)]

/-- Run a sequence of `tarfile.add` requests (source path, arcname) in
order, accumulating entries.  Returns the entries written so far and, when
a request's source path is missing, that path (the raised error): the
`with` block still closes the archive, flushing the entries added before
the raise. -/
def tarAddAll (fs : FS) : List (FPath × FPath) → List (FPath × Entry) →
    List (FPath × Entry) × Option FPath
  | [], acc => (acc, none)
  | (p, arc) :: rest, acc =>
      match tarAdd fs p arc with
      | some es => tarAddAll fs rest (acc ++ es)
      | none => (acc, some p)

/-- Outcome of an `archive_model` call. -/
inductive ArchiveOutcome where
  | ok : ArchiveOutcome
  | earlyReturn : ArchiveOutcome
  | raised (missing : FPath) : ArchiveOutcome
deriving DecidableEq

/-- The tar-add requests `archive_model` issues, in source order. -/
def archiveRequests (serialization_dir : FPath) (weights_file config_file : FPath)
    (files_to_archive : Option (List (String × String))) : List (FPath × FPath) :=
  [(config_file, [_CONFIG_NAME]),
   (weights_file, [_WEIGHTS_NAME]),
   (serialization_dir ++ ["vocabulary"], ["vocabulary"])] ++
  (if ftaTruthy files_to_archive then
     (serialization_dir ++ [_FTA_NAME], [_FTA_NAME]) ::
       (files_to_archive.getD []).map
         (fun kv => (strPath kv.2, ["fta", kv.1]))
   else [])

/-- Embedding of `archive_model(serialization_dir, weights, files_to_archive)`.
Returns the filesystem after the call together with its outcome:
`earlyReturn` when the weights file is missing (logged error, plain
`return`), `raised p` when a `tarfile.add` raised on missing source `p`
(the partially written `model.tar.gz` remains on disk), `ok` otherwise.
A missing config file is only logged (`logger.error`) and execution
continues. -/
def archive_model (fs : FS) (serialization_dir : FPath)
    (weights : String := _DEFAULT_WEIGHTS)
    (files_to_archive : Option (List (String × String)) := none) :
    FS × ArchiveOutcome :=
  let weights_file := serialization_dir ++ [weights]
  if (fsLookup fs weights_file).isNone then
    (fs, ArchiveOutcome.earlyReturn)
  else
    let config_file := serialization_dir ++ ["model_params.json"]
    let fs1 :=
      if ftaTruthy files_to_archive then
        fsWrite fs (serialization_dir ++ [_FTA_NAME])
          (Entry.jsonObj (files_to_archive.getD []))
      else fs
    let archive_file := serialization_dir ++ ["model.tar.gz"]
    match tarAddAll fs1
        (archiveRequests serialization_dir weights_file config_file files_to_archive) [] with
    | (entries, none) =>
        (fsWrite fs1 archive_file (Entry.targz entries), ArchiveOutcome.ok)
    | (entries, some p) =>
        (fsWrite fs1 archive_file (Entry.targz entries), ArchiveOutcome.raised p)

/-- Modelled from the spec: `allennlp.common.Params` (not under `src/`), the
fully merged, override-applied configuration, as a flat key-value map. -/
structure Params where
  fields : Overrides
deriving DecidableEq

/-- Modelled from the spec: `Params.duplicate`, a deep copy of the
configuration, retained so the returned Archive still holds the original
after model loading consumes its own copy. -/
def Params.duplicate (p : Params) : Params := Params.mk p.fields

/-- Modelled from the spec: `Params.from_file(path, overrides_text)` (not
under `src/`) parses the JSON configuration file at `path` and applies the
overrides text on top, overrides taking precedence; `none` when the file
is missing or not a JSON object. -/
def paramsFromFile (fs : FS) (p : FPath) (overrides : Overrides) : Option Params :=
  match fsLookup fs p with
  | some (Entry.jsonObj cfg) => some (Params.mk (hoconMerge overrides cfg))
  | _ => none

/-- Modelled from the spec: the opaque model collaborator instance, recording
what it was constructed from. -/
structure Model where
  config : Params
  weightsFile : FPath
  serializationDir : FPath
  cudaDevice : Int
deriving DecidableEq

/-- Modelled from the spec: `Model.load(config, weights_file,
serialization_dir, cuda_device)` (not under `src/`), which destructively
consumes the configuration handed to it and fails when the weights file
is absent. -/
def modelLoad (fs : FS) (config : Params) (weights_file : FPath)
    (serialization_dir : FPath) (cuda_device : Int) : Option Model :=
  match fsLookup fs weights_file with
  | some Entry.dir => none
  | some _ => some (Model.mk config weights_file serialization_dir cuda_device)
  | none => none

/-- The `Archive` NamedTuple from the source: a model and its config. -/
structure Archive where
  model : Model
  config : Params
deriving DecidableEq

/-- Errors a `load_archive` call can raise. -/
inductive LoadErr where
  | resolutionError : LoadErr
  | corruptArchive : LoadErr
  | malformedManifest : LoadErr
  | configError : LoadErr
  | modelLoadError : LoadErr
deriving DecidableEq

/-- Modelled from the spec: `cached_path` (not under `src/`); local paths
pass through unchanged, which is the only case the claims exercise. -/
def cached_path (p : FPath) : FPath := p

/-- Extraction of tar entries into a fresh temporary directory:
`tempfile.mkdtemp()` creates the directory, `extractall` places every
entry under it.  Extracted entries shadow any pre-existing bindings. -/
def extractAll (fs : FS) (tempdir : FPath) (entries : List (FPath × Entry)) : FS :=
  (tempdir, Entry.dir) :: entries.map (fun q => (tempdir ++ q.1, q.2)) ++ fs

/-- Embedding of `shutil.rmtree(tempdir)`: delete the directory and
everything under it. -/
def rmtree (tempdir : FPath) (fs : FS) : FS :=
  fs.filter (fun q => !(tempdir.isPrefixOf q.1))

/-- The substitution layer built from the manifest during restore: each
manifest key maps to the extracted replacement path `tempdir/fta/<key>`;
the manifest's values (the original paths) are not consulted. -/
def replacements (tempdir : FPath) (fta : List (String × String)) : Overrides :=
  fta.map (fun kv => (kv.1, pathStr (tempdir ++ ["fta", kv.1])))

/-- Result of a `load_archive` call: the filesystem after the call, the
returned Archive or the raised error, and two trace observations — the
combined overrides text handed to configuration loading and the
configuration value handed to `Model.load` (when those calls happened). -/
structure LoadOutput where
  fs : FS
  result : Except LoadErr Archive
  combinedOverrides : Option Overrides
  modelLoadArg : Option Params

/-- Stage 3 of `load_archive`: the auxiliary-file reconciliation, building
the combined overrides handed to configuration loading.  With no manifest
the caller's overrides pass through unchanged; with a manifest, the
substitution layer is merged with the caller's overrides in the source's
`from_dict(replacements).with_fallback(parse_string(overrides))`
direction; a present but unparsable manifest raises. -/
def loadCombinedStep (fs1 : FS) (tempdir : FPath) (overrides : Overrides) :
    Except LoadErr Overrides :=
  match fsLookup fs1 (tempdir ++ [_FTA_NAME]) with
  | none => Except.ok overrides
  | some (Entry.jsonObj files_to_archive) =>
      Except.ok (hoconMerge (replacements tempdir files_to_archive) overrides)
  | some _ => Except.error LoadErr.malformedManifest

/-- Stages 3-6 of `load_archive`, run on the already-extracted temporary
directory `fs1 = extractAll fs tempdir entries`: reconcile overrides, load
the config, load the model from a duplicate of the config, and delete the
temporary directory — the deletion happening only on the success path,
exactly as in the source. -/
def loadFromExtracted (fs1 : FS) (tempdir : FPath) (cuda_device : Int)
    (overrides : Overrides) : LoadOutput :=
  match loadCombinedStep fs1 tempdir overrides with
  | Except.error e => LoadOutput.mk fs1 (Except.error e) none none
  | Except.ok combined =>
      match paramsFromFile fs1 (tempdir ++ [_CONFIG_NAME]) combined with
      | none => LoadOutput.mk fs1 (Except.error LoadErr.configError) (some combined) none
      | some config =>
          match modelLoad fs1 config.duplicate (tempdir ++ [_WEIGHTS_NAME])
              tempdir cuda_device with
          | none =>
              LoadOutput.mk fs1 (Except.error LoadErr.modelLoadError)
                (some combined) (some config.duplicate)
          | some model =>
              LoadOutput.mk (rmtree tempdir fs1)
                (Except.ok (Archive.mk model config))
                (some combined) (some config.duplicate)

/-- Embedding of `load_archive(archive_file, cuda_device, overrides)`.
The fresh temporary directory name `tempfile.mkdtemp()` returns is passed
in as `tempdir`.  Resolve the archive reference, extract the tar entries
into the temporary directory, then run the remaining stages there. -/
def load_archive (fs : FS) (archive_file : FPath) (tempdir : FPath)
    (cuda_device : Int := -1) (overrides : Overrides := []) : LoadOutput :=
  match fsLookup fs (cached_path archive_file) with
  | none => LoadOutput.mk fs (Except.error LoadErr.resolutionError) none none
  | some (Entry.targz entries) =>
      loadFromExtracted (extractAll fs tempdir entries) tempdir cuda_device overrides
  | some _ => LoadOutput.mk fs (Except.error LoadErr.corruptArchive) none none

/-! Helper lemmas about the filesystem model. -/

theorem fsLookup_append_some {l r : FS} {p : FPath} {e : Entry}
    (h : fsLookup l p = some e) : fsLookup (l ++ r) p = some e := by
  induction l with
  | nil => simp [fsLookup] at h
  | cons q rest ih =>
      obtain ⟨q1, q2⟩ := q
      simp only [fsLookup, List.cons_append] at h ⊢
      split at h
      · simpa [*] using h
      · simp only [*, if_neg]
        exact ih h

theorem fsLookup_append_none {l r : FS} {p : FPath}
    (h : fsLookup l p = none) : fsLookup (l ++ r) p = fsLookup r p := by
  induction l with
  | nil => simp [fsLookup]
  | cons q rest ih =>
      obtain ⟨q1, q2⟩ := q
      simp only [fsLookup, List.cons_append] at h ⊢
      split at h
      · exact absurd h (by simp)
      · simp only [*, if_neg]
        exact ih h

theorem fsLookup_eq_none_of_forall_ne {l : FS} {p : FPath}
    (h : ∀ q ∈ l, q.1 ≠ p) : fsLookup l p = none := by
  induction l with
  | nil => simp [fsLookup]
  | cons q rest ih =>
      obtain ⟨q1, q2⟩ := q
      have h1 : q1 ≠ p := h (q1, q2) (by simp)
      simp only [fsLookup, if_neg h1]
      exact ih (fun q hq => h q (by simp [hq]))

theorem fsLookup_map_rebase (entries : List (FPath × Entry)) (tempdir p : FPath) :
    fsLookup (entries.map (fun q => (tempdir ++ q.1, q.2))) (tempdir ++ p)
      = fsLookup entries p := by
  induction entries with
  | nil => simp [fsLookup]
  | cons q rest ih =>
      obtain ⟨q1, q2⟩ := q
      by_cases hq : q1 = p
      · simp [fsLookup, hq]
      · have : tempdir ++ q1 ≠ tempdir ++ p := fun hc => hq (List.append_cancel_left hc)
        simp only [List.map_cons, fsLookup, if_neg hq, if_neg this]
        exact ih

/-- Freshness of the temporary directory `tempfile.mkdtemp` returns: no
existing filesystem binding lies at or under it. -/
def fsFresh (tempdir : FPath) (fs : FS) : Prop :=
  ∀ q ∈ fs, tempdir.isPrefixOf q.1 = false

theorem fsLookup_of_fresh {tempdir : FPath} {fs : FS} (h : fsFresh tempdir fs)
    (rest : FPath) : fsLookup fs (tempdir ++ rest) = none := by
  refine fsLookup_eq_none_of_forall_ne (fun q hq hc => ?_)
  have := h q hq
  rw [hc] at this
  rw [List.isPrefixOf_iff_prefix.mpr (List.prefix_append tempdir rest)] at this
  simp at this

theorem append_ne_self_of_ne_nil {α : Type} (l : List α) {t : List α} (ht : t ≠ []) :
    l ++ t ≠ l := by
  intro hc
  have := congrArg List.length hc
  simp only [List.length_append] at this
  have : t.length = 0 := by omega
  exact ht (List.eq_nil_of_length_eq_zero this)

theorem fsLookup_extractAll {fs : FS} {tempdir : FPath}
    {entries : List (FPath × Entry)} {p : FPath} (hp : p ≠ [])
    (hfresh : fsFresh tempdir fs) :
    fsLookup (extractAll fs tempdir entries) (tempdir ++ p) = fsLookup entries p := by
  have hne : tempdir ≠ tempdir ++ p := fun hc =>
    append_ne_self_of_ne_nil tempdir hp hc.symm
  simp only [extractAll, fsLookup, if_neg hne]
  cases hm : fsLookup entries p with
  | some e =>
      have := fsLookup_map_rebase entries tempdir p
      rw [hm] at this
      exact fsLookup_append_some this
  | none =>
      have h2 := fsLookup_map_rebase entries tempdir p
      rw [hm] at h2
      show fsLookup (entries.map (fun q => (tempdir ++ q.1, q.2)) ++ fs) (tempdir ++ p) = none
      rw [fsLookup_append_none h2]
      exact fsLookup_of_fresh hfresh p

theorem fsLookup_fsWrite_self (fs : FS) (p : FPath) (e : Entry) :
    fsLookup (fsWrite fs p e) p = some e := by
  simp [fsWrite, fsLookup]

theorem fsLookup_filter_ne {fs : FS} {p p2 : FPath} (h : p ≠ p2) :
    fsLookup (fs.filter (fun q => q.1 ≠ p2)) p = fsLookup fs p := by
  induction fs with
  | nil => simp
  | cons q rest ih =>
      obtain ⟨q1, q2⟩ := q
      rw [List.filter_cons]
      by_cases hq : q1 = p2
      · have hqp : q1 ≠ p := fun hc => h (by rw [← hc, hq])
        rw [if_neg (by simp [hq]), ih]
        simp [fsLookup, hqp]
      · by_cases hqp : q1 = p
        · rw [if_pos (by simp [hq])]
          simp [fsLookup, hqp]
        · rw [if_pos (by simp [hq])]
          simp only [ne_eq, decide_not] at ih
          simp [fsLookup, hqp, ih]

theorem fsLookup_fsWrite_ne {fs : FS} {p p2 : FPath} {e : Entry} (h : p ≠ p2) :
    fsLookup (fsWrite fs p2 e) p = fsLookup fs p := by
  have : p2 ≠ p := fun hc => h hc.symm
  simp only [fsWrite, fsLookup, if_neg this]
  exact fsLookup_filter_ne h

/-! Helper lemmas about overrides maps and merging. -/

theorem ovLookup_append_left {hd tl : Overrides} {k : String} {v : String}
    (h : ovLookup hd k = some v) : ovLookup (hd ++ tl) k = some v := by
  induction hd with
  | nil => simp [ovLookup] at h
  | cons q rest ih =>
      obtain ⟨q1, q2⟩ := q
      simp only [ovLookup, List.cons_append] at h ⊢
      split at h
      · simpa [*] using h
      · simp only [*, if_neg]
        exact ih h

theorem ovLookup_hoconMerge_high {high low : Overrides} {k v : String}
    (h : ovLookup high k = some v) : ovLookup (hoconMerge high low) k = some v :=
  ovLookup_append_left h

theorem ovLookup_replacements {m : List (String × String)} {k : String}
    (hk : ∃ v, (k, v) ∈ m) (tempdir : FPath) :
    ovLookup (replacements tempdir m) k = some (pathStr (tempdir ++ ["fta", k])) := by
  obtain ⟨v, hv⟩ := hk
  induction m with
  | nil => simp at hv
  | cons q rest ih =>
      obtain ⟨q1, q2⟩ := q
      by_cases hq : q1 = k
      · simp [replacements, ovLookup, hq]
      · have : (k, v) ∈ rest := by
          rcases List.mem_cons.mp hv with h1 | h1
          · exact absurd (congrArg Prod.fst h1).symm hq
          · exact h1
        simp only [replacements, List.map_cons, ovLookup, if_neg hq]
        exact ih this

theorem hoconMerge_nil_left (low : Overrides) : hoconMerge [] low = low := by
  simp only [hoconMerge, List.nil_append, ovLookup]
  have : ∀ kv : String × String, (Option.isNone (none : Option String)) = true := by
    simp
  exact List.filter_true low

theorem replacements_eq_of_keys_eq {m1 m2 : List (String × String)}
    (h : m1.map Prod.fst = m2.map Prod.fst) (tempdir : FPath) :
    replacements tempdir m1 = replacements tempdir m2 := by
  have h1 : replacements tempdir m1
      = (m1.map Prod.fst).map (fun k => (k, pathStr (tempdir ++ ["fta", k]))) := by
    simp [replacements, List.map_map]
  have h2 : replacements tempdir m2
      = (m2.map Prod.fst).map (fun k => (k, pathStr (tempdir ++ ["fta", k]))) := by
    simp [replacements, List.map_map]
  rw [h1, h2, h]

/-! Helper lemmas about tar construction. -/

theorem tarAdd_shape {fs : FS} {p arc : FPath} {es : List (FPath × Entry)}
    (h : tarAdd fs p arc = some es) :
    ∃ ce rest, fsLookup fs p = some ce ∧ es = (arc, ce) :: rest ∧
      ∀ x ∈ rest, ∃ t, t ≠ [] ∧ x.1 = arc ++ t := by
  unfold tarAdd at h
  cases hl : fsLookup fs p with
  | none => rw [hl] at h; exact absurd h (by simp)
  | some ce =>
      rw [hl] at h
      cases ce with
      | dir =>
          refine ⟨Entry.dir, fs.filterMap (fun q =>
            if p.isPrefixOf q.1 ∧ q.1 ≠ p then
              some (arc ++ q.1.drop p.length, q.2) else none), rfl, ?_, ?_⟩
          · exact (Option.some.injEq _ _ ▸ h).symm
          · intro x hx
            obtain ⟨q, hqmem, hfq⟩ := List.mem_filterMap.mp hx
            by_cases hc : p.isPrefixOf q.1 ∧ q.1 ≠ p
            · rw [if_pos hc] at hfq
              have hx2 : (arc ++ q.1.drop p.length, q.2) = x := Option.some.inj hfq
              obtain ⟨t2, ht2⟩ := List.isPrefixOf_iff_prefix.mp hc.1
              refine ⟨q.1.drop p.length, ?_, ?_⟩
              · rw [← ht2, List.drop_left]
                intro hnil
                exact hc.2 (by rw [← ht2, hnil, List.append_nil])
              · rw [← hx2]
            · rw [if_neg hc] at hfq
              exact absurd hfq (by simp)
      | bytes d =>
          exact ⟨Entry.bytes d, [], rfl, (Option.some.injEq _ _ ▸ h).symm, by simp⟩
      | jsonObj m =>
          exact ⟨Entry.jsonObj m, [], rfl, (Option.some.injEq _ _ ▸ h).symm, by simp⟩
      | targz t =>
          exact ⟨Entry.targz t, [], rfl, (Option.some.injEq _ _ ▸ h).symm, by simp⟩

theorem tarAddAll_of_forall_isSome {fs : FS} {reqs : List (FPath × FPath)}
    (h : ∀ r ∈ reqs, (tarAdd fs r.1 r.2).isSome) (acc : List (FPath × Entry)) :
    tarAddAll fs reqs acc
      = (acc ++ reqs.flatMap (fun r => (tarAdd fs r.1 r.2).getD []), none) := by
  induction reqs generalizing acc with
  | nil => simp [tarAddAll]
  | cons r rest ih =>
      obtain ⟨p, arc⟩ := r
      have hs := h (p, arc) (by simp)
      obtain ⟨es, hes⟩ := Option.isSome_iff_exists.mp hs
      simp only [tarAddAll, hes]
      rw [ih (fun r hr => h r (by simp [hr]))]
      simp [hes, List.append_assoc]

theorem mem_flatMap_tarAdd {fs : FS} {reqs : List (FPath × FPath)}
    {x : FPath × Entry}
    (h : x ∈ reqs.flatMap (fun r => (tarAdd fs r.1 r.2).getD [])) :
    ∃ r ∈ reqs, ∃ es, tarAdd fs r.1 r.2 = some es ∧ x ∈ es := by
  obtain ⟨r, hr, hx⟩ := List.mem_flatMap.mp h
  cases hes : tarAdd fs r.1 r.2 with
  | none => rw [hes] at hx; simp at hx
  | some es =>
      rw [hes] at hx
      exact ⟨r, hr, es, hes, hx⟩

/-! Characterization of `archive_model` when the config file is missing,
shared groundwork for the missing-config claims. -/

theorem archive_model_missing_config (fs : FS) (dir : FPath) (w : String)
    (fta : Option (List (String × String))) (e : Entry)
    (hW : fsLookup fs (dir ++ [w]) = some e)
    (hC : fsLookup fs (dir ++ ["model_params.json"]) = none) :
    archive_model fs dir w fta =
      (fsWrite (if ftaTruthy fta then
            fsWrite fs (dir ++ [_FTA_NAME]) (Entry.jsonObj (fta.getD []))
          else fs)
        (dir ++ ["model.tar.gz"]) (Entry.targz []),
       ArchiveOutcome.raised (dir ++ ["model_params.json"])) := by
  have hC1 : fsLookup (if ftaTruthy fta then
      fsWrite fs (dir ++ [_FTA_NAME]) (Entry.jsonObj (fta.getD [])) else fs)
      (dir ++ ["model_params.json"]) = none := by
    split
    · rw [fsLookup_fsWrite_ne, hC]
      intro hc
      have := List.append_cancel_left hc
      simp [_FTA_NAME] at this
    · exact hC
  have hadd : tarAdd (if ftaTruthy fta then
      fsWrite fs (dir ++ [_FTA_NAME]) (Entry.jsonObj (fta.getD [])) else fs)
      (dir ++ ["model_params.json"]) [_CONFIG_NAME] = none := by
    unfold tarAdd
    rw [hC1]
  simp only [archive_model, hW, Option.isNone_some, Bool.false_eq_true, if_false,
    archiveRequests, List.cons_append, tarAddAll, hadd]

/-- C4: when the chosen weights file does not exist, `archive_model` logs an
error and returns at once: no `model.tar.gz` is produced, no
`files_to_archive.json` manifest is written even when a files-to-archive
map was supplied, and the filesystem is left exactly as it was. -/
theorem c4_weights_missing_aborts (fs : FS) (dir : FPath) (w : String)
    (fta : Option (List (String × String)))
    (h : fsLookup fs (dir ++ [w]) = none) :
    archive_model fs dir w fta = (fs, ArchiveOutcome.earlyReturn) := by
  simp [archive_model, h]

/-- Witness for C4 at a concrete serialization directory with no weights
file but a supplied files-to-archive map. -/
theorem c4_weights_missing_aborts_witness :
    archive_model [(["d", "vocabulary"], Entry.dir)] ["d"] "w.th" (some [("k", "f")])
      = ([(["d", "vocabulary"], Entry.dir)], ArchiveOutcome.earlyReturn) :=
  c4_weights_missing_aborts [(["d", "vocabulary"], Entry.dir)] ["d"] "w.th"
    (some [("k", "f")]) rfl

/-- C5 counterexample: a serialization directory whose weights file exists
but whose `model_params.json` is absent.  The claim says the call
continues and the missing config is non-fatal for the call; in fact the
call terminates with a raised error (at `archive.add` of the missing
config file), not a normal return. -/
theorem c5_counterexample :
    (archive_model [(["sd", "best.th"], Entry.bytes "W")] ["sd"] "best.th" none).2
      = ArchiveOutcome.raised ["sd", "model_params.json"] := rfl

/-- C5 amended: the missing-config check itself only logs and does not
return early — execution continues past it, so a supplied files-to-archive
map is still serialized to `serializationDir/files_to_archive.json` — but
the call is not non-fatal: it then raises when adding the missing config
file as the archive's first entry. -/
theorem c5_amended_missing_config_continues_then_raises (fs : FS) (dir : FPath)
    (w : String) (m : List (String × String)) (e : Entry) (hm : m ≠ [])
    (hW : fsLookup fs (dir ++ [w]) = some e)
    (hC : fsLookup fs (dir ++ ["model_params.json"]) = none) :
    (archive_model fs dir w (some m)).2
        = ArchiveOutcome.raised (dir ++ ["model_params.json"]) ∧
    fsLookup (archive_model fs dir w (some m)).1 (dir ++ [_FTA_NAME])
        = some (Entry.jsonObj m) := by
  rw [archive_model_missing_config fs dir w (some m) e hW hC]
  have htruthy : ftaTruthy (some m) = true := by simp [ftaTruthy, hm]
  refine ⟨rfl, ?_⟩
  rw [if_pos htruthy]
  rw [fsLookup_fsWrite_ne (fun hc => ?_), Option.getD_some, fsLookup_fsWrite_self]
  have := List.append_cancel_left hc
  simp [_FTA_NAME] at this

/-- Witness for the amended C5 at a concrete input. -/
theorem c5_amended_missing_config_continues_then_raises_witness :
    (archive_model [(["sd", "w.th"], Entry.bytes "W")] ["sd"] "w.th"
        (some [("k", "f")])).2
      = ArchiveOutcome.raised ["sd", "model_params.json"] ∧
    fsLookup (archive_model [(["sd", "w.th"], Entry.bytes "W")] ["sd"] "w.th"
        (some [("k", "f")])).1 (["sd"] ++ [_FTA_NAME])
      = some (Entry.jsonObj [("k", "f")]) :=
  c5_amended_missing_config_continues_then_raises
    [(["sd", "w.th"], Entry.bytes "W")] ["sd"] "w.th" [("k", "f")]
    (Entry.bytes "W") (by simp) rfl rfl

/-- C9: when the weights file exists but `model_params.json` is absent,
`archive_model` does not return normally: it creates (truncating)
`serializationDir/model.tar.gz`, then raises on adding the missing config
file as the first entry, leaving an empty archive file behind. -/
theorem c9_missing_config_leaves_partial_archive (fs : FS) (dir : FPath)
    (w : String) (fta : Option (List (String × String))) (e : Entry)
    (hW : fsLookup fs (dir ++ [w]) = some e)
    (hC : fsLookup fs (dir ++ ["model_params.json"]) = none) :
    (archive_model fs dir w fta).2
        = ArchiveOutcome.raised (dir ++ ["model_params.json"]) ∧
    fsLookup (archive_model fs dir w fta).1 (dir ++ ["model.tar.gz"])
        = some (Entry.targz []) := by
  rw [archive_model_missing_config fs dir w fta e hW hC]
  exact ⟨rfl, fsLookup_fsWrite_self _ _ _⟩

/-- Witness for C9 at a concrete input: the directory even held a previous
non-empty `model.tar.gz`, which the failed call truncates to an empty
archive. -/
theorem c9_missing_config_leaves_partial_archive_witness :
    (archive_model [(["d", "b.th"], Entry.bytes "W"),
        (["d", "model.tar.gz"], Entry.bytes "OLD")] ["d"] "b.th" none).2
      = ArchiveOutcome.raised ["d", "model_params.json"] ∧
    fsLookup (archive_model [(["d", "b.th"], Entry.bytes "W"),
        (["d", "model.tar.gz"], Entry.bytes "OLD")] ["d"] "b.th" none).1
      (["d"] ++ ["model.tar.gz"]) = some (Entry.targz []) :=
  c9_missing_config_leaves_partial_archive
    [(["d", "b.th"], Entry.bytes "W"), (["d", "model.tar.gz"], Entry.bytes "OLD")]
    ["d"] "b.th" none (Entry.bytes "W") rfl rfl

/-! Characterizations of `load_archive`, shared groundwork for the
restore-side claims. -/

theorem modelLoad_config {fs : FS} {config : Params} {wf sd : FPath} {dev : Int}
    {model : Model} (h : modelLoad fs config wf sd dev = some model) :
    model = Model.mk config wf sd dev := by
  unfold modelLoad at h
  cases hl : fsLookup fs wf with
  | none => rw [hl] at h; simp at h
  | some e =>
      rw [hl] at h
      cases e with
      | dir => simp at h
      | bytes d => exact (Option.some.inj h).symm
      | jsonObj m => exact (Option.some.inj h).symm
      | targz t => exact (Option.some.inj h).symm

theorem load_archive_targz {fs : FS} {af : FPath} (tempdir : FPath) (dev : Int)
    (ov : Overrides) {entries : List (FPath × Entry)}
    (harc : fsLookup fs af = some (Entry.targz entries)) :
    load_archive fs af tempdir dev ov
      = loadFromExtracted (extractAll fs tempdir entries) tempdir dev ov := by
  unfold load_archive
  rw [show cached_path af = af from rfl, harc]

theorem loadFromExtracted_combined {fs1 : FS} {tempdir : FPath} (dev : Int)
    (ov : Overrides) {combined : Overrides}
    (h : loadCombinedStep fs1 tempdir ov = Except.ok combined) :
    (loadFromExtracted fs1 tempdir dev ov).combinedOverrides = some combined := by
  unfold loadFromExtracted
  rw [h]
  dsimp only
  cases hpf : paramsFromFile fs1 (tempdir ++ [_CONFIG_NAME]) combined with
  | none => rfl
  | some config =>
      dsimp only
      cases hml : modelLoad fs1 config.duplicate (tempdir ++ [_WEIGHTS_NAME])
          tempdir dev with
      | none => rfl
      | some model => rfl

theorem load_archive_combined_of_manifest (fs : FS) (af tempdir : FPath)
    (dev : Int) (ov : Overrides) (entries : List (FPath × Entry))
    (m : List (String × String))
    (harc : fsLookup fs af = some (Entry.targz entries))
    (hm : fsLookup (extractAll fs tempdir entries) (tempdir ++ [_FTA_NAME])
        = some (Entry.jsonObj m)) :
    (load_archive fs af tempdir dev ov).combinedOverrides
      = some (hoconMerge (replacements tempdir m) ov) := by
  rw [load_archive_targz tempdir dev ov harc]
  refine loadFromExtracted_combined dev ov ?_
  unfold loadCombinedStep
  rw [hm]

theorem load_archive_combined_no_manifest (fs : FS) (af tempdir : FPath)
    (dev : Int) (ov : Overrides) (entries : List (FPath × Entry))
    (harc : fsLookup fs af = some (Entry.targz entries))
    (hm : fsLookup (extractAll fs tempdir entries) (tempdir ++ [_FTA_NAME])
        = none) :
    (load_archive fs af tempdir dev ov).combinedOverrides = some ov := by
  rw [load_archive_targz tempdir dev ov harc]
  refine loadFromExtracted_combined dev ov ?_
  unfold loadCombinedStep
  rw [hm]

theorem loadFromExtracted_ok_inv {fs1 : FS} {tempdir : FPath} {dev : Int}
    {ov : Overrides} {a : Archive}
    (h : (loadFromExtracted fs1 tempdir dev ov).result = Except.ok a) :
    ∃ combined,
      loadCombinedStep fs1 tempdir ov = Except.ok combined ∧
      (loadFromExtracted fs1 tempdir dev ov).combinedOverrides = some combined ∧
      paramsFromFile fs1 (tempdir ++ [_CONFIG_NAME]) combined = some a.config ∧
      modelLoad fs1 a.config.duplicate (tempdir ++ [_WEIGHTS_NAME]) tempdir dev
        = some a.model ∧
      (loadFromExtracted fs1 tempdir dev ov).modelLoadArg
        = some a.config.duplicate ∧
      (loadFromExtracted fs1 tempdir dev ov).fs = rmtree tempdir fs1 := by
  unfold loadFromExtracted at h ⊢
  revert h
  cases hcs : loadCombinedStep fs1 tempdir ov with
  | error e => intro h; simp at h
  | ok combined =>
      dsimp only
      intro h
      revert h
      cases hpf : paramsFromFile fs1 (tempdir ++ [_CONFIG_NAME]) combined with
      | none => intro h; simp at h
      | some config =>
          dsimp only
          intro h
          revert h
          cases hml : modelLoad fs1 config.duplicate (tempdir ++ [_WEIGHTS_NAME])
              tempdir dev with
          | none => intro h; simp at h
          | some model =>
              dsimp only
              intro h
              have ha : a = Archive.mk model config := (Except.ok.inj h).symm
              subst ha
              exact ⟨combined, rfl, rfl, hpf, hml, rfl, rfl⟩

theorem load_archive_ok_inv (fs : FS) (af tempdir : FPath) (dev : Int)
    (ov : Overrides) (a : Archive)
    (h : (load_archive fs af tempdir dev ov).result = Except.ok a) :
    ∃ entries combined,
      fsLookup fs af = some (Entry.targz entries) ∧
      (load_archive fs af tempdir dev ov).combinedOverrides = some combined ∧
      paramsFromFile (extractAll fs tempdir entries) (tempdir ++ [_CONFIG_NAME])
        combined = some a.config ∧
      modelLoad (extractAll fs tempdir entries) a.config.duplicate
        (tempdir ++ [_WEIGHTS_NAME]) tempdir dev = some a.model ∧
      (load_archive fs af tempdir dev ov).modelLoadArg
        = some a.config.duplicate ∧
      (load_archive fs af tempdir dev ov).fs
        = rmtree tempdir (extractAll fs tempdir entries) := by
  unfold load_archive at h ⊢
  rw [show cached_path af = af from rfl] at h ⊢
  cases hl : fsLookup fs af with
  | none => rw [hl] at h; simp at h
  | some e =>
      rw [hl] at h
      cases e with
      | dir => simp at h
      | bytes d => simp at h
      | jsonObj mm => simp at h
      | targz entries =>
          obtain ⟨combined, _, h2, h3, h4, h5, h6⟩ := loadFromExtracted_ok_inv h
          exact ⟨entries, combined, rfl, h2, h3, h4, h5, h6⟩

/-! Concrete fixtures used by witnesses and counterexamples. -/

/-- Tar entries of a small archive with a manifest binding key `k` to the
stored original path `v`. -/
def sampleEntries (v : String) : List (FPath × Entry) :=
  [(["config.json"], Entry.jsonObj [("k", "orig"), ("a", "1")]),
   (["weights.th"], Entry.bytes "W"),
   (["vocabulary"], Entry.dir),
   (["files_to_archive.json"], Entry.jsonObj [("k", v)]),
   (["fta", "k"], Entry.bytes "aux")]

/-- A filesystem holding the sample archive at `a.tgz`. -/
def sampleArchiveFS (v : String) : FS := [(["a.tgz"], Entry.targz (sampleEntries v))]

/-- A filesystem holding an archive with no manifest at `b.tgz`. -/
def plainArchiveFS : FS :=
  [(["b.tgz"], Entry.targz
     [(["config.json"], Entry.jsonObj [("a", "1")]),
      (["weights.th"], Entry.bytes "W"),
      (["vocabulary"], Entry.dir)])]

/-- A filesystem holding an archive whose manifest file is not parsable
JSON, at `c.tgz`. -/
def malformedManifestFS : FS :=
  [(["c.tgz"], Entry.targz
     [(["config.json"], Entry.jsonObj [("a", "1")]),
      (["weights.th"], Entry.bytes "W"),
      (["vocabulary"], Entry.dir),
      (["files_to_archive.json"], Entry.bytes "not json")])]

/-- C1 counterexample: an archive whose manifest sets key `k` and a caller
override that also sets `k`.  The claim says the caller-supplied value
appears in the combined overrides; in fact the combined overrides bind `k`
to the manifest-derived replacement path `t0/fta/k`, not to the caller's
value, because the source computes
`from_dict(replacements).with_fallback(parse_string(overrides))` and
pyhocon gives the receiver precedence over the fallback. -/
theorem c1_counterexample :
    (load_archive (sampleArchiveFS "/old/path") ["a.tgz"] ["t0"] (-1)
        [("k", "callerval")]).combinedOverrides
      = some [("k", "t0/fta/k")] ∧ ("t0/fta/k" : String) ≠ "callerval" :=
  ⟨rfl, by decide⟩

/-- C1 amended: for every configuration key set by both the manifest
substitutions and the caller overrides, the manifest-derived replacement
path `tempdir/fta/<key>` — not the caller-supplied value — appears in the
combined overrides fed to configuration loading: manifest substitutions
take precedence over caller overrides on key conflicts. -/
theorem c1_amended_manifest_substitutions_win (fs : FS) (af tempdir : FPath)
    (dev : Int) (ov : Overrides) (entries : List (FPath × Entry))
    (m : List (String × String)) (k v vCaller : String)
    (harc : fsLookup fs af = some (Entry.targz entries))
    (hm : fsLookup (extractAll fs tempdir entries) (tempdir ++ [_FTA_NAME])
        = some (Entry.jsonObj m))
    (hkm : (k, v) ∈ m)
    (_hkov : ovLookup ov k = some vCaller) :
    ∃ co, (load_archive fs af tempdir dev ov).combinedOverrides = some co ∧
      ovLookup co k = some (pathStr (tempdir ++ ["fta", k])) :=
  ⟨hoconMerge (replacements tempdir m) ov,
    load_archive_combined_of_manifest fs af tempdir dev ov entries m harc hm,
    ovLookup_hoconMerge_high (ovLookup_replacements ⟨v, hkm⟩ tempdir)⟩

/-- Witness for the amended C1 at a concrete input. -/
theorem c1_amended_manifest_substitutions_win_witness :
    ∃ co, (load_archive (sampleArchiveFS "/old/path") ["a.tgz"] ["t0"] (-1)
        [("k", "callerval")]).combinedOverrides = some co ∧
      ovLookup co "k" = some (pathStr (["t0"] ++ ["fta", "k"])) :=
  c1_amended_manifest_substitutions_win (sampleArchiveFS "/old/path") ["a.tgz"]
    ["t0"] (-1) [("k", "callerval")] (sampleEntries "/old/path")
    [("k", "/old/path")] "k" "/old/path" "callerval" rfl rfl (by simp) rfl

/-- C3 counterexample: restoring an archive whose manifest is present but
malformed raises, and the extracted temporary-directory contents are still
on the filesystem when the call completes — cleanup did not happen on this
failure path. -/
theorem c3_counterexample :
    (load_archive malformedManifestFS ["c.tgz"] ["t2"] (-1) []).result
        = Except.error LoadErr.malformedManifest ∧
    fsLookup (load_archive malformedManifestFS ["c.tgz"] ["t2"] (-1) []).fs
        ["t2", "config.json"] = some (Entry.jsonObj [("a", "1")]) :=
  ⟨rfl, rfl⟩

/-- C3 amended: the per-call temporary extraction directory and its
contents are deleted before the call completes only on the success path
(when an Archive value is returned); on failure paths after extraction —
malformed manifest, configuration load failure, model load failure — the
deletion is skipped and the extracted contents remain. -/
theorem c3_amended_cleanup_only_on_success (fs : FS) (af tempdir : FPath)
    (dev : Int) (ov : Overrides) (a : Archive)
    (h : (load_archive fs af tempdir dev ov).result = Except.ok a) :
    ∀ q ∈ (load_archive fs af tempdir dev ov).fs,
      tempdir.isPrefixOf q.1 = false := by
  obtain ⟨entries, combined, h1, h2, h3, h4, h5, h6⟩ :=
    load_archive_ok_inv fs af tempdir dev ov a h
  rw [h6]
  intro q hq
  simp only [rmtree, List.mem_filter] at hq
  simpa using hq.2

/-- Witness for the amended C3 at a concrete successful restore: the
extracted config file is gone from the final filesystem. -/
theorem c3_amended_cleanup_only_on_success_witness :
    fsLookup (load_archive plainArchiveFS ["b.tgz"] ["t3"] (-1) []).fs
      (["t3"] ++ ["config.json"]) = none :=
  fsLookup_eq_none_of_forall_ne (fun q hq hc => by
    have hclean := c3_amended_cleanup_only_on_success plainArchiveFS ["b.tgz"]
      ["t3"] (-1) []
      (Archive.mk
        (Model.mk (Params.mk [("a", "1")]) ["t3", "weights.th"] ["t3"] (-1))
        (Params.mk [("a", "1")])) rfl q hq
    rw [hc, List.isPrefixOf_iff_prefix.mpr (List.prefix_append _ _)] at hclean
    simp at hclean)

/-- C7: when a manifest exists in the extracted tree, the substitution
layer maps each of its keys to the extracted replacement path
`tempdir/fta/<key>`, and that layer merged with the caller's overrides is
the combined overrides fed to configuration loading; when no manifest
exists, the caller's overrides are fed to configuration loading
completely unchanged. -/
theorem c7_replacements_and_passthrough (fs : FS) (af tempdir : FPath)
    (dev : Int) (ov : Overrides) (entries : List (FPath × Entry))
    (harc : fsLookup fs af = some (Entry.targz entries)) :
    (∀ m, fsLookup (extractAll fs tempdir entries) (tempdir ++ [_FTA_NAME])
        = some (Entry.jsonObj m) →
      (∀ k v, (k, v) ∈ m →
        ovLookup (replacements tempdir m) k
          = some (pathStr (tempdir ++ ["fta", k]))) ∧
      (load_archive fs af tempdir dev ov).combinedOverrides
        = some (hoconMerge (replacements tempdir m) ov)) ∧
    (fsLookup (extractAll fs tempdir entries) (tempdir ++ [_FTA_NAME]) = none →
      (load_archive fs af tempdir dev ov).combinedOverrides = some ov) := by
  constructor
  · intro m hm
    exact ⟨fun k v hkv => ovLookup_replacements ⟨v, hkv⟩ tempdir,
      load_archive_combined_of_manifest fs af tempdir dev ov entries m harc hm⟩
  · intro hm
    exact load_archive_combined_no_manifest fs af tempdir dev ov entries harc hm

/-- Witness for C7 at a concrete input with a one-key manifest. -/
theorem c7_replacements_and_passthrough_witness :
    ovLookup (replacements ["t0"] [("k", "/old/path")]) "k"
        = some (pathStr (["t0"] ++ ["fta", "k"])) ∧
    (load_archive (sampleArchiveFS "/old/path") ["a.tgz"] ["t0"] (-1)
        []).combinedOverrides
        = some (hoconMerge (replacements ["t0"] [("k", "/old/path")]) []) :=
  ⟨((c7_replacements_and_passthrough (sampleArchiveFS "/old/path") ["a.tgz"]
      ["t0"] (-1) [] (sampleEntries "/old/path") rfl).1
      [("k", "/old/path")] rfl).1 "k" "/old/path" (by simp),
   ((c7_replacements_and_passthrough (sampleArchiveFS "/old/path") ["a.tgz"]
      ["t0"] (-1) [] (sampleEntries "/old/path") rfl).1
      [("k", "/old/path")] rfl).2⟩

/-- C8: on every successful restore, the configuration handed to the
model-loading collaborator is the duplicate of the merged configuration
(the model itself records that duplicate), while the returned Archive
pairs the model with the merged configuration produced by configuration
loading. -/
theorem c8_model_gets_duplicate_archive_keeps_original (fs : FS)
    (af tempdir : FPath) (dev : Int) (ov : Overrides) (a : Archive)
    (h : (load_archive fs af tempdir dev ov).result = Except.ok a) :
    (load_archive fs af tempdir dev ov).modelLoadArg
        = some a.config.duplicate ∧
    a.model.config = a.config.duplicate ∧
    ∃ entries combined,
      fsLookup fs af = some (Entry.targz entries) ∧
      (load_archive fs af tempdir dev ov).combinedOverrides = some combined ∧
      paramsFromFile (extractAll fs tempdir entries) (tempdir ++ [_CONFIG_NAME])
        combined = some a.config := by
  obtain ⟨entries, combined, h1, h2, h3, h4, h5, h6⟩ :=
    load_archive_ok_inv fs af tempdir dev ov a h
  refine ⟨h5, ?_, entries, combined, h1, h2, h3⟩
  rw [modelLoad_config h4]

/-- Witness for C8 at a concrete successful restore. -/
theorem c8_model_gets_duplicate_archive_keeps_original_witness :
    (load_archive plainArchiveFS ["b.tgz"] ["t1"] (-1) []).modelLoadArg
        = some (Archive.mk
          (Model.mk (Params.mk [("a", "1")]) ["t1", "weights.th"] ["t1"] (-1))
          (Params.mk [("a", "1")])).config.duplicate ∧
    (Archive.mk
      (Model.mk (Params.mk [("a", "1")]) ["t1", "weights.th"] ["t1"] (-1))
      (Params.mk [("a", "1")])).model.config
        = (Archive.mk
          (Model.mk (Params.mk [("a", "1")]) ["t1", "weights.th"] ["t1"] (-1))
          (Params.mk [("a", "1")])).config.duplicate ∧
    ∃ entries combined,
      fsLookup plainArchiveFS ["b.tgz"] = some (Entry.targz entries) ∧
      (load_archive plainArchiveFS ["b.tgz"] ["t1"] (-1) []).combinedOverrides
        = some combined ∧
      paramsFromFile (extractAll plainArchiveFS ["t1"] entries)
        (["t1"] ++ [_CONFIG_NAME]) combined
        = some (Archive.mk
          (Model.mk (Params.mk [("a", "1")]) ["t1", "weights.th"] ["t1"] (-1))
          (Params.mk [("a", "1")])).config :=
  c8_model_gets_duplicate_archive_keeps_original plainArchiveFS ["b.tgz"] ["t1"]
    (-1) []
    (Archive.mk
      (Model.mk (Params.mk [("a", "1")]) ["t1", "weights.th"] ["t1"] (-1))
      (Params.mk [("a", "1")])) rfl

/-- C10: the combined overrides built during restore depend only on the
manifest's key set and the caller's overrides, never on the manifest's
stored original-path values: two restores whose extracted manifests have
the same keys in the same order but arbitrary different original-path
values produce identical combined overrides. -/
theorem c10_overrides_depend_only_on_manifest_keys (fsA fsB : FS)
    (afA afB tempdir : FPath) (devA devB : Int) (ov : Overrides)
    (esA esB : List (FPath × Entry)) (mA mB : List (String × String))
    (hA : fsLookup fsA afA = some (Entry.targz esA))
    (hB : fsLookup fsB afB = some (Entry.targz esB))
    (hmA : fsLookup (extractAll fsA tempdir esA) (tempdir ++ [_FTA_NAME])
        = some (Entry.jsonObj mA))
    (hmB : fsLookup (extractAll fsB tempdir esB) (tempdir ++ [_FTA_NAME])
        = some (Entry.jsonObj mB))
    (hkeys : mA.map Prod.fst = mB.map Prod.fst) :
    (load_archive fsA afA tempdir devA ov).combinedOverrides
      = (load_archive fsB afB tempdir devB ov).combinedOverrides := by
  rw [load_archive_combined_of_manifest fsA afA tempdir devA ov esA mA hA hmA,
    load_archive_combined_of_manifest fsB afB tempdir devB ov esB mB hB hmB,
    replacements_eq_of_keys_eq hkeys]

/-- Witness for C10: two archives whose manifests share the key `k` but
store different original paths yield the same combined overrides. -/
theorem c10_overrides_depend_only_on_manifest_keys_witness :
    (load_archive (sampleArchiveFS "/first/path") ["a.tgz"] ["t4"] (-1)
        [("x", "1")]).combinedOverrides
      = (load_archive (sampleArchiveFS "/second/path") ["a.tgz"] ["t4"] 3
        [("x", "1")]).combinedOverrides :=
  c10_overrides_depend_only_on_manifest_keys (sampleArchiveFS "/first/path")
    (sampleArchiveFS "/second/path") ["a.tgz"] ["a.tgz"] ["t4"] (-1) 3
    [("x", "1")] (sampleEntries "/first/path") (sampleEntries "/second/path")
    [("k", "/first/path")] [("k", "/second/path")] rfl rfl rfl rfl rfl

/-! Round-trip groundwork. -/

/-- The tar entries contributed by recursively adding the `vocabulary`
subdirectory of a serialization directory. -/
def vocabChildren (fs : FS) (dir : FPath) : List (FPath × Entry) :=
  fs.filterMap (fun q =>
    if (dir ++ ["vocabulary"]).isPrefixOf q.1 ∧ q.1 ≠ dir ++ ["vocabulary"] then
      some (["vocabulary"] ++ q.1.drop (dir ++ ["vocabulary"]).length, q.2)
    else none)

theorem vocabChildren_shape {fs : FS} {dir : FPath} {x : FPath × Entry}
    (hx : x ∈ vocabChildren fs dir) :
    ∃ t, t ≠ [] ∧ x.1 = ["vocabulary"] ++ t := by
  unfold vocabChildren at hx
  obtain ⟨q, hqmem, hfq⟩ := List.mem_filterMap.mp hx
  by_cases hc : (dir ++ ["vocabulary"]).isPrefixOf q.1 ∧ q.1 ≠ dir ++ ["vocabulary"]
  · rw [if_pos hc] at hfq
    have hx2 := Option.some.inj hfq
    obtain ⟨t2, ht2⟩ := List.isPrefixOf_iff_prefix.mp hc.1
    refine ⟨q.1.drop (dir ++ ["vocabulary"]).length, ?_, ?_⟩
    · rw [← ht2, List.drop_left]
      intro hnil
      exact hc.2 (by rw [← ht2, hnil, List.append_nil])
    · rw [← hx2]
  · rw [if_neg hc] at hfq
    exact absurd hfq (by simp)

/-- C2: for every serialization directory holding a weights file, a
`model_params.json` configuration file, and a `vocabulary` subdirectory,
archiving it and restoring the produced `model.tar.gz` (into a fresh
temporary directory) succeeds, and the restored Archive's configuration
equals the original config file's fields (no auxiliary files were
supplied, so no path field is rewritten). -/
theorem c2_roundtrip (fs : FS) (dir : FPath) (w : String)
    (cfg : List (String × String)) (wc : Entry) (tempdir : FPath) (dev : Int)
    (hW : fsLookup fs (dir ++ [w]) = some wc) (hwne : wc ≠ Entry.dir)
    (hC : fsLookup fs (dir ++ ["model_params.json"]) = some (Entry.jsonObj cfg))
    (hV : fsLookup fs (dir ++ ["vocabulary"]) = some Entry.dir)
    (hfresh : fsFresh tempdir (archive_model fs dir w none).1) :
    (archive_model fs dir w none).2 = ArchiveOutcome.ok ∧
    ∃ a : Archive,
      (load_archive (archive_model fs dir w none).1 (dir ++ ["model.tar.gz"])
          tempdir dev []).result = Except.ok a ∧
      a.config = Params.mk cfg := by
  have hadd1 : tarAdd fs (dir ++ ["model_params.json"]) [_CONFIG_NAME]
      = some [([_CONFIG_NAME], Entry.jsonObj cfg)] := by
    unfold tarAdd; rw [hC]
  have hadd2 : tarAdd fs (dir ++ [w]) [_WEIGHTS_NAME]
      = some [([_WEIGHTS_NAME], wc)] := by
    unfold tarAdd; rw [hW]
    cases wc with
    | dir => exact absurd rfl hwne
    | bytes d => rfl
    | jsonObj m => rfl
    | targz t => rfl
  have hadd3 : tarAdd fs (dir ++ ["vocabulary"]) ["vocabulary"]
      = some ((["vocabulary"], Entry.dir) :: vocabChildren fs dir) := by
    unfold tarAdd; rw [hV]; rfl
  have hreq : tarAddAll fs
      (archiveRequests dir (dir ++ [w]) (dir ++ ["model_params.json"]) none) []
      = (([_CONFIG_NAME], Entry.jsonObj cfg) :: ([_WEIGHTS_NAME], wc) ::
          (["vocabulary"], Entry.dir) :: vocabChildren fs dir, none) := by
    simp [archiveRequests, ftaTruthy, tarAddAll, hadd1, hadd2, hadd3]
  have harch : archive_model fs dir w none
      = (fsWrite fs (dir ++ ["model.tar.gz"])
          (Entry.targz (([_CONFIG_NAME], Entry.jsonObj cfg) ::
            ([_WEIGHTS_NAME], wc) :: (["vocabulary"], Entry.dir) ::
            vocabChildren fs dir)),
         ArchiveOutcome.ok) := by
    simp only [archive_model, hW, Option.isNone_some, Bool.false_eq_true,
      if_false, ftaTruthy, hreq]
  rw [harch] at hfresh ⊢
  refine ⟨rfl, ?_⟩
  have harcL : fsLookup
      (fsWrite fs (dir ++ ["model.tar.gz"])
        (Entry.targz (([_CONFIG_NAME], Entry.jsonObj cfg) ::
          ([_WEIGHTS_NAME], wc) :: (["vocabulary"], Entry.dir) ::
          vocabChildren fs dir)))
      (dir ++ ["model.tar.gz"])
      = some (Entry.targz (([_CONFIG_NAME], Entry.jsonObj cfg) ::
          ([_WEIGHTS_NAME], wc) :: (["vocabulary"], Entry.dir) ::
          vocabChildren fs dir)) := fsLookup_fsWrite_self _ _ _
  rw [load_archive_targz tempdir dev [] harcL]
  have hman : fsLookup (extractAll
      (fsWrite fs (dir ++ ["model.tar.gz"])
        (Entry.targz (([_CONFIG_NAME], Entry.jsonObj cfg) ::
          ([_WEIGHTS_NAME], wc) :: (["vocabulary"], Entry.dir) ::
          vocabChildren fs dir)))
      tempdir
      (([_CONFIG_NAME], Entry.jsonObj cfg) :: ([_WEIGHTS_NAME], wc) ::
        (["vocabulary"], Entry.dir) :: vocabChildren fs dir))
      (tempdir ++ [_FTA_NAME]) = none := by
    rw [fsLookup_extractAll (by simp [_FTA_NAME]) hfresh]
    refine fsLookup_eq_none_of_forall_ne ?_
    intro q hq
    rcases List.mem_cons.mp hq with rfl | hq
    · simp [_CONFIG_NAME, _FTA_NAME]
    rcases List.mem_cons.mp hq with rfl | hq
    · simp [_WEIGHTS_NAME, _FTA_NAME]
    rcases List.mem_cons.mp hq with rfl | hq
    · simp [_FTA_NAME]
    obtain ⟨t, htne, ht⟩ := vocabChildren_shape hq
    rw [ht]
    simp [_FTA_NAME]
  have hcs : loadCombinedStep (extractAll
      (fsWrite fs (dir ++ ["model.tar.gz"])
        (Entry.targz (([_CONFIG_NAME], Entry.jsonObj cfg) ::
          ([_WEIGHTS_NAME], wc) :: (["vocabulary"], Entry.dir) ::
          vocabChildren fs dir)))
      tempdir
      (([_CONFIG_NAME], Entry.jsonObj cfg) :: ([_WEIGHTS_NAME], wc) ::
        (["vocabulary"], Entry.dir) :: vocabChildren fs dir))
      tempdir [] = Except.ok [] := by
    unfold loadCombinedStep
    rw [hman]
  have hpf : paramsFromFile (extractAll
      (fsWrite fs (dir ++ ["model.tar.gz"])
        (Entry.targz (([_CONFIG_NAME], Entry.jsonObj cfg) ::
          ([_WEIGHTS_NAME], wc) :: (["vocabulary"], Entry.dir) ::
          vocabChildren fs dir)))
      tempdir
      (([_CONFIG_NAME], Entry.jsonObj cfg) :: ([_WEIGHTS_NAME], wc) ::
        (["vocabulary"], Entry.dir) :: vocabChildren fs dir))
      (tempdir ++ [_CONFIG_NAME]) [] = some (Params.mk cfg) := by
    unfold paramsFromFile
    rw [fsLookup_extractAll (by simp [_CONFIG_NAME]) hfresh]
    simp [fsLookup, hoconMerge_nil_left]
  have hwl : fsLookup (extractAll
      (fsWrite fs (dir ++ ["model.tar.gz"])
        (Entry.targz (([_CONFIG_NAME], Entry.jsonObj cfg) ::
          ([_WEIGHTS_NAME], wc) :: (["vocabulary"], Entry.dir) ::
          vocabChildren fs dir)))
      tempdir
      (([_CONFIG_NAME], Entry.jsonObj cfg) :: ([_WEIGHTS_NAME], wc) ::
        (["vocabulary"], Entry.dir) :: vocabChildren fs dir))
      (tempdir ++ [_WEIGHTS_NAME]) = some wc := by
    rw [fsLookup_extractAll (by simp [_WEIGHTS_NAME]) hfresh]
    simp [fsLookup, _CONFIG_NAME, _WEIGHTS_NAME]
  have hml : modelLoad (extractAll
      (fsWrite fs (dir ++ ["model.tar.gz"])
        (Entry.targz (([_CONFIG_NAME], Entry.jsonObj cfg) ::
          ([_WEIGHTS_NAME], wc) :: (["vocabulary"], Entry.dir) ::
          vocabChildren fs dir)))
      tempdir
      (([_CONFIG_NAME], Entry.jsonObj cfg) :: ([_WEIGHTS_NAME], wc) ::
        (["vocabulary"], Entry.dir) :: vocabChildren fs dir))
      (Params.mk cfg).duplicate (tempdir ++ [_WEIGHTS_NAME]) tempdir dev
      = some (Model.mk (Params.mk cfg).duplicate (tempdir ++ [_WEIGHTS_NAME])
          tempdir dev) := by
    unfold modelLoad
    rw [hwl]
    cases wc with
    | dir => exact absurd rfl hwne
    | bytes d => rfl
    | jsonObj m => rfl
    | targz t => rfl
  refine ⟨Archive.mk (Model.mk (Params.mk cfg).duplicate
      (tempdir ++ [_WEIGHTS_NAME]) tempdir dev) (Params.mk cfg), ?_, rfl⟩
  unfold loadFromExtracted
  rw [hcs]
  dsimp only
  rw [hpf]
  dsimp only
  rw [hml]

/-- A concrete serialization directory for round-trip witnesses. -/
def roundTripFS : FS :=
  [(["d", "w.th"], Entry.bytes "W"),
   (["d", "model_params.json"], Entry.jsonObj [("a", "1")]),
   (["d", "vocabulary"], Entry.dir),
   (["d", "vocabulary", "tokens.txt"], Entry.bytes "tok")]

/-- Witness for C2 at a concrete serialization directory. -/
theorem c2_roundtrip_witness :
    (archive_model roundTripFS ["d"] "w.th" none).2 = ArchiveOutcome.ok ∧
    ∃ a : Archive,
      (load_archive (archive_model roundTripFS ["d"] "w.th" none).1
          (["d"] ++ ["model.tar.gz"]) ["t5"] (-1) []).result = Except.ok a ∧
      a.config = Params.mk [("a", "1")] :=
  c2_roundtrip roundTripFS ["d"] "w.th" [("a", "1")] (Entry.bytes "W") ["t5"]
    (-1) rfl (by simp) rfl rfl (by unfold fsFresh; decide)

/-! Groundwork for the archive-contents claim. -/

theorem append_singleton_ne {dir : FPath} {a b : String} (h : a ≠ b) :
    dir ++ [a] ≠ dir ++ [b] :=
  fun hc => h (by simpa using List.append_cancel_left hc)

theorem tarAdd_isSome_of_lookup {fs : FS} {p : FPath} {e : Entry} (arc : FPath)
    (h : fsLookup fs p = some e) : (tarAdd fs p arc).isSome = true := by
  unfold tarAdd
  rw [h]
  cases e <;> rfl

theorem tarAdd_file {fs : FS} {p : FPath} {e : Entry} (arc : FPath)
    (h : fsLookup fs p = some e) (hne : e ≠ Entry.dir) :
    tarAdd fs p arc = some [(arc, e)] := by
  unfold tarAdd
  rw [h]
  cases e with
  | dir => exact absurd rfl hne
  | bytes d => rfl
  | jsonObj m => rfl
  | targz t => rfl

theorem fsLookup_vocabChildren_append (fs1 : FS) (dir : FPath)
    (tail : List (FPath × Entry)) {name : String} (hname : name ≠ "vocabulary") :
    fsLookup (vocabChildren fs1 dir ++ tail) [name] = fsLookup tail [name] := by
  refine fsLookup_append_none (fsLookup_eq_none_of_forall_ne ?_)
  intro q hq
  obtain ⟨t, htne, ht⟩ := vocabChildren_shape hq
  rw [ht]
  intro hc
  simp only [List.cons_append, List.nil_append, List.cons.injEq] at hc
  exact hname hc.1.symm

theorem head_of_vocabChild {fs1 : FS} {dir : FPath} {q : FPath × Entry}
    (hq : q ∈ vocabChildren fs1 dir) : q.1.head? = some "vocabulary" := by
  obtain ⟨t, htne, ht⟩ := vocabChildren_shape hq
  rw [ht]
  rfl

/-- C6: a successful `archive_model` call — the hypotheses list exactly the
source files whose presence makes the call succeed — writes
`serializationDir/model.tar.gz` whose entries are exactly: `config.json`
holding the config file's content, `weights.th` holding the chosen weights
file's content, the `vocabulary` directory with its full subtree (every
top-level entry name is one of these), plus, exactly when a non-empty
files-to-archive map was supplied, the `files_to_archive.json` manifest
and one `fta/<key>` entry per map entry; with no map, no
`files_to_archive.json` entry and no `fta/` entry exists. -/
theorem c6_archive_contents_exact (fs : FS) (dir : FPath) (w : String)
    (fta : Option (List (String × String))) (cfgE wcE : Entry)
    (hW : fsLookup fs (dir ++ [w]) = some wcE) (hwne : wcE ≠ Entry.dir)
    (hwname : w ≠ _FTA_NAME)
    (hC : fsLookup fs (dir ++ ["model_params.json"]) = some cfgE)
    (hcne : cfgE ≠ Entry.dir)
    (hV : fsLookup fs (dir ++ ["vocabulary"]) = some Entry.dir)
    (hA : ∀ kv ∈ fta.getD [], ∃ e, fsLookup fs (strPath kv.2) = some e) :
    ∃ entries,
      (archive_model fs dir w fta).2 = ArchiveOutcome.ok ∧
      fsLookup (archive_model fs dir w fta).1 (dir ++ ["model.tar.gz"])
        = some (Entry.targz entries) ∧
      fsLookup entries [_CONFIG_NAME] = some cfgE ∧
      fsLookup entries [_WEIGHTS_NAME] = some wcE ∧
      fsLookup entries ["vocabulary"] = some Entry.dir ∧
      (∀ q ∈ entries, q.1.head? = some _CONFIG_NAME
        ∨ q.1.head? = some _WEIGHTS_NAME
        ∨ q.1.head? = some "vocabulary"
        ∨ (ftaTruthy fta = true ∧
            (q.1.head? = some _FTA_NAME ∨ q.1.head? = some "fta"))) ∧
      (ftaTruthy fta = true →
        fsLookup entries [_FTA_NAME] = some (Entry.jsonObj (fta.getD [])) ∧
        ∀ kv ∈ fta.getD [], ∃ e, (["fta", kv.1], e) ∈ entries) ∧
      (ftaTruthy fta = false →
        ∀ q ∈ entries, q.1.head? ≠ some _FTA_NAME ∧ q.1.head? ≠ some "fta") := by
  cases htr : ftaTruthy fta with
  | false =>
      have hadd1 := tarAdd_file [_CONFIG_NAME] hC hcne
      have hadd2 := tarAdd_file [_WEIGHTS_NAME] hW hwne
      have hadd3 : tarAdd fs (dir ++ ["vocabulary"]) ["vocabulary"]
          = some ((["vocabulary"], Entry.dir) :: vocabChildren fs dir) := by
        unfold tarAdd; rw [hV]; rfl
      have hreq : tarAddAll fs
          (archiveRequests dir (dir ++ [w]) (dir ++ ["model_params.json"]) fta) []
          = (([_CONFIG_NAME], cfgE) :: ([_WEIGHTS_NAME], wcE) ::
              (["vocabulary"], Entry.dir) :: vocabChildren fs dir, none) := by
        simp [archiveRequests, htr, tarAddAll, hadd1, hadd2, hadd3]
      have harch : archive_model fs dir w fta
          = (fsWrite fs (dir ++ ["model.tar.gz"])
              (Entry.targz (([_CONFIG_NAME], cfgE) :: ([_WEIGHTS_NAME], wcE) ::
                (["vocabulary"], Entry.dir) :: vocabChildren fs dir)),
             ArchiveOutcome.ok) := by
        simp only [archive_model, hW, Option.isNone_some, Bool.false_eq_true,
          if_false, htr, hreq]
      rw [harch]
      refine ⟨_, rfl, fsLookup_fsWrite_self _ _ _, ?_, ?_, ?_, ?_, ?_, ?_⟩
      · simp [fsLookup]
      · simp [fsLookup, _CONFIG_NAME, _WEIGHTS_NAME]
      · simp [fsLookup, _CONFIG_NAME, _WEIGHTS_NAME]
      · intro q hq
        rcases List.mem_cons.mp hq with rfl | hq
        · exact Or.inl rfl
        rcases List.mem_cons.mp hq with rfl | hq
        · exact Or.inr (Or.inl rfl)
        rcases List.mem_cons.mp hq with rfl | hq
        · exact Or.inr (Or.inr (Or.inl rfl))
        · exact Or.inr (Or.inr (Or.inl (head_of_vocabChild hq)))
      · intro htrue
        simp at htrue
      · intro _ q hq
        rcases List.mem_cons.mp hq with rfl | hq
        · exact ⟨by simp [_CONFIG_NAME, _FTA_NAME], by simp [_CONFIG_NAME]⟩
        rcases List.mem_cons.mp hq with rfl | hq
        · exact ⟨by simp [_WEIGHTS_NAME, _FTA_NAME], by simp [_WEIGHTS_NAME]⟩
        rcases List.mem_cons.mp hq with rfl | hq
        · exact ⟨by simp [_FTA_NAME], by simp⟩
        · have hh := head_of_vocabChild hq
          rw [hh]
          exact ⟨by simp [_FTA_NAME], by simp⟩
  | true =>
      have hC1 : fsLookup (fsWrite fs (dir ++ [_FTA_NAME])
          (Entry.jsonObj (fta.getD []))) (dir ++ ["model_params.json"])
          = some cfgE := by
        rw [fsLookup_fsWrite_ne (append_singleton_ne (by simp [_FTA_NAME]))]
        exact hC
      have hW1 : fsLookup (fsWrite fs (dir ++ [_FTA_NAME])
          (Entry.jsonObj (fta.getD []))) (dir ++ [w]) = some wcE := by
        rw [fsLookup_fsWrite_ne (append_singleton_ne hwname)]
        exact hW
      have hV1 : fsLookup (fsWrite fs (dir ++ [_FTA_NAME])
          (Entry.jsonObj (fta.getD []))) (dir ++ ["vocabulary"])
          = some Entry.dir := by
        rw [fsLookup_fsWrite_ne (append_singleton_ne (by simp [_FTA_NAME]))]
        exact hV
      have hM1 : fsLookup (fsWrite fs (dir ++ [_FTA_NAME])
          (Entry.jsonObj (fta.getD []))) (dir ++ [_FTA_NAME])
          = some (Entry.jsonObj (fta.getD [])) := fsLookup_fsWrite_self _ _ _
      have hAux : ∀ kv ∈ fta.getD [], ∃ e,
          fsLookup (fsWrite fs (dir ++ [_FTA_NAME])
            (Entry.jsonObj (fta.getD []))) (strPath kv.2) = some e := by
        intro kv hkv
        by_cases hp : strPath kv.2 = dir ++ [_FTA_NAME]
        · exact ⟨Entry.jsonObj (fta.getD []),
            by rw [hp]; exact fsLookup_fsWrite_self _ _ _⟩
        · obtain ⟨e, he⟩ := hA kv hkv
          exact ⟨e, by rw [fsLookup_fsWrite_ne hp]; exact he⟩
      have hadd1 := tarAdd_file [_CONFIG_NAME] hC1 hcne
      have hadd2 := tarAdd_file [_WEIGHTS_NAME] hW1 hwne
      have hadd3 : tarAdd (fsWrite fs (dir ++ [_FTA_NAME])
          (Entry.jsonObj (fta.getD []))) (dir ++ ["vocabulary"]) ["vocabulary"]
          = some ((["vocabulary"], Entry.dir) ::
              vocabChildren (fsWrite fs (dir ++ [_FTA_NAME])
                (Entry.jsonObj (fta.getD []))) dir) := by
        unfold tarAdd; rw [hV1]; rfl
      have hadd4 := tarAdd_file [_FTA_NAME] hM1 (by simp)
      have hreqs : ∀ r ∈ archiveRequests dir (dir ++ [w])
          (dir ++ ["model_params.json"]) fta,
          (tarAdd (fsWrite fs (dir ++ [_FTA_NAME])
            (Entry.jsonObj (fta.getD []))) r.1 r.2).isSome = true := by
        intro r hr
        simp only [archiveRequests, htr, if_true, List.cons_append,
          List.nil_append, List.mem_cons, List.mem_map] at hr
        rcases hr with rfl | rfl | rfl | rfl | ⟨kv, hkv, rfl⟩
        · exact tarAdd_isSome_of_lookup _ hC1
        · exact tarAdd_isSome_of_lookup _ hW1
        · exact tarAdd_isSome_of_lookup _ hV1
        · exact tarAdd_isSome_of_lookup _ hM1
        · obtain ⟨e, he⟩ := hAux kv hkv
          exact tarAdd_isSome_of_lookup _ he
      have hflat := tarAddAll_of_forall_isSome hreqs []
      have hentries : (archiveRequests dir (dir ++ [w])
          (dir ++ ["model_params.json"]) fta).flatMap
            (fun r => (tarAdd (fsWrite fs (dir ++ [_FTA_NAME])
              (Entry.jsonObj (fta.getD []))) r.1 r.2).getD [])
          = ([_CONFIG_NAME], cfgE) :: ([_WEIGHTS_NAME], wcE) ::
            (["vocabulary"], Entry.dir) ::
            (vocabChildren (fsWrite fs (dir ++ [_FTA_NAME])
                (Entry.jsonObj (fta.getD []))) dir ++
              (([_FTA_NAME], Entry.jsonObj (fta.getD [])) ::
                ((fta.getD []).map
                  (fun kv => (strPath kv.2, (["fta", kv.1] : FPath)))).flatMap
                  (fun r => (tarAdd (fsWrite fs (dir ++ [_FTA_NAME])
                    (Entry.jsonObj (fta.getD []))) r.1 r.2).getD []))) := by
        simp [archiveRequests, htr, hadd1, hadd2, hadd3, hadd4]
      rw [hentries] at hflat
      have harch : archive_model fs dir w fta
          = (fsWrite (fsWrite fs (dir ++ [_FTA_NAME])
              (Entry.jsonObj (fta.getD []))) (dir ++ ["model.tar.gz"])
              (Entry.targz (([_CONFIG_NAME], cfgE) :: ([_WEIGHTS_NAME], wcE) ::
                (["vocabulary"], Entry.dir) ::
                (vocabChildren (fsWrite fs (dir ++ [_FTA_NAME])
                    (Entry.jsonObj (fta.getD []))) dir ++
                  (([_FTA_NAME], Entry.jsonObj (fta.getD [])) ::
                    ((fta.getD []).map
                      (fun kv => (strPath kv.2, (["fta", kv.1] : FPath)))).flatMap
                      (fun r => (tarAdd (fsWrite fs (dir ++ [_FTA_NAME])
                        (Entry.jsonObj (fta.getD []))) r.1 r.2).getD []))))),
             ArchiveOutcome.ok) := by
        simp only [archive_model, hW, Option.isNone_some, Bool.false_eq_true,
          if_false, htr, if_true, hflat, List.nil_append]
      rw [harch]
      refine ⟨_, rfl, fsLookup_fsWrite_self _ _ _, ?_, ?_, ?_, ?_, ?_, ?_⟩
      · simp [fsLookup]
      · simp [fsLookup, _CONFIG_NAME, _WEIGHTS_NAME]
      · simp [fsLookup, _CONFIG_NAME, _WEIGHTS_NAME]
      · intro q hq
        rcases List.mem_cons.mp hq with rfl | hq
        · exact Or.inl rfl
        rcases List.mem_cons.mp hq with rfl | hq
        · exact Or.inr (Or.inl rfl)
        rcases List.mem_cons.mp hq with rfl | hq
        · exact Or.inr (Or.inr (Or.inl rfl))
        rcases List.mem_append.mp hq with hq | hq
        · exact Or.inr (Or.inr (Or.inl (head_of_vocabChild hq)))
        rcases List.mem_cons.mp hq with rfl | hq
        · exact Or.inr (Or.inr (Or.inr ⟨rfl, Or.inl rfl⟩))
        · obtain ⟨r, hrm, hqr⟩ := List.mem_flatMap.mp hq
          obtain ⟨kv, hkv, rfl⟩ := List.mem_map.mp hrm
          cases hts : tarAdd (fsWrite fs (dir ++ [_FTA_NAME])
              (Entry.jsonObj (fta.getD []))) (strPath kv.2) ["fta", kv.1] with
          | none => rw [hts] at hqr; simp at hqr
          | some es =>
              rw [hts] at hqr
              obtain ⟨ce, rest, hl, heq, hrest⟩ := tarAdd_shape hts
              rw [heq] at hqr
              simp only [Option.getD_some] at hqr
              rcases List.mem_cons.mp hqr with rfl | hqr
              · exact Or.inr (Or.inr (Or.inr ⟨rfl, Or.inr rfl⟩))
              · obtain ⟨t, htne, ht⟩ := hrest q hqr
                rw [ht]
                exact Or.inr (Or.inr (Or.inr ⟨rfl, Or.inr rfl⟩))
      · intro _
        constructor
        · simp only [fsLookup, _CONFIG_NAME, _WEIGHTS_NAME, _FTA_NAME]
          rw [if_neg (by decide), if_neg (by decide), if_neg (by decide),
            fsLookup_vocabChildren_append _ _ _ (by decide)]
          simp [fsLookup]
        · intro kv hkv
          obtain ⟨e, he⟩ := hAux kv hkv
          cases hts : tarAdd (fsWrite fs (dir ++ [_FTA_NAME])
              (Entry.jsonObj (fta.getD []))) (strPath kv.2) ["fta", kv.1] with
          | none =>
              have := tarAdd_isSome_of_lookup (["fta", kv.1] : FPath) he
              rw [hts] at this
              simp at this
          | some es =>
              obtain ⟨ce, rest, hl, heq, hrest⟩ := tarAdd_shape hts
              refine ⟨ce, ?_⟩
              apply List.mem_cons_of_mem
              apply List.mem_cons_of_mem
              apply List.mem_cons_of_mem
              apply List.mem_append_right
              apply List.mem_cons_of_mem
              refine List.mem_flatMap.mpr
                ⟨(strPath kv.2, (["fta", kv.1] : FPath)),
                  List.mem_map.mpr ⟨kv, hkv, rfl⟩, ?_⟩
              rw [hts, Option.getD_some, heq]
              exact List.mem_cons_self _ _
      · intro hfalse
        simp at hfalse

/-- A serialization directory plus an auxiliary file for the archive-contents
witness. -/
def c6FS : FS := roundTripFS ++ [(["tmp", "foo.txt"], Entry.bytes "aux")]

/-- Witness for C6 at a concrete directory with a one-entry files-to-archive
map. -/
theorem c6_archive_contents_exact_witness :
    ∃ entries,
      (archive_model c6FS ["d"] "w.th" (some [("extra", "tmp/foo.txt")])).2
        = ArchiveOutcome.ok ∧
      fsLookup (archive_model c6FS ["d"] "w.th"
          (some [("extra", "tmp/foo.txt")])).1 (["d"] ++ ["model.tar.gz"])
        = some (Entry.targz entries) ∧
      fsLookup entries [_CONFIG_NAME] = some (Entry.jsonObj [("a", "1")]) ∧
      fsLookup entries [_WEIGHTS_NAME] = some (Entry.bytes "W") ∧
      fsLookup entries ["vocabulary"] = some Entry.dir ∧
      (∀ q ∈ entries, q.1.head? = some _CONFIG_NAME
        ∨ q.1.head? = some _WEIGHTS_NAME
        ∨ q.1.head? = some "vocabulary"
        ∨ (ftaTruthy (some [("extra", "tmp/foo.txt")]) = true ∧
            (q.1.head? = some _FTA_NAME ∨ q.1.head? = some "fta"))) ∧
      (ftaTruthy (some [("extra", "tmp/foo.txt")]) = true →
        fsLookup entries [_FTA_NAME]
          = some (Entry.jsonObj ((some [("extra", "tmp/foo.txt")]).getD [])) ∧
        ∀ kv ∈ (some [("extra", "tmp/foo.txt")]).getD [],
          ∃ e, (["fta", kv.1], e) ∈ entries) ∧
      (ftaTruthy (some [("extra", "tmp/foo.txt")]) = false →
        ∀ q ∈ entries, q.1.head? ≠ some _FTA_NAME ∧ q.1.head? ≠ some "fta") :=
  c6_archive_contents_exact c6FS ["d"] "w.th" (some [("extra", "tmp/foo.txt")])
    (Entry.jsonObj [("a", "1")]) (Entry.bytes "W") rfl (by simp) (by decide)
    rfl (by simp) rfl
    (by
      intro kv hkv
      simp only [Option.getD_some, List.mem_singleton] at hkv
      subst hkv
      exact ⟨Entry.bytes "aux", rfl⟩)
